import Mathlib

/-!
Shallow embedding of `word2questions.js.py`, the docx question-bank
converter.  The core (regex matchers, answer normalizer, parsing state
machine, record finalizer, merge step) is translated function by function.
Text is modelled as `List Char`; Python regexes are unrolled into explicit
character-level parsing that reproduces the regex semantics (anchoring,
greediness, backtracking order, alternation order) on newline-free lines.
Python whitespace `\s` is modelled by the ASCII whitespace characters; the
full-width space `U+3000` is already replaced by an ordinary space by the
document adapter before the core sees a line.  Fallible code (the
`parts[0]` indexing in `normalize_answers`, which can raise `IndexError`)
is modelled with `Option`: `none` means the Python code raises.
-/

namespace W2Q

/-- Python `\s` on the lines this program sees: ASCII whitespace. -/
def isSpc (c : Char) : Bool :=
  c = ' ' ∨ c = '\t' ∨ c = '\n' ∨ c = '\r' ∨ c = '\x0b' ∨ c = '\x0c'

/-- Python `str.lstrip()` / the regex `^\s*`. -/
def lstrip (l : List Char) : List Char := l.dropWhile isSpc

/-- Python `str.rstrip()` / the regex `\s*$`. -/
def rstrip (l : List Char) : List Char := (l.reverse.dropWhile isSpc).reverse

/-- Python `str.strip()`. -/
def strip (l : List Char) : List Char := rstrip (lstrip l)

/-- Collapse adjacent spaces: helper for `clean`. -/
def squeeze : List Char → List Char
  | [] => []
  | [c] => [c]
  | a :: b :: rest =>
    if a = ' ' ∧ b = ' ' then squeeze (b :: rest) else a :: squeeze (b :: rest)

/-- `clean`: `re.sub(r"\s+", " ", s).strip()` — every maximal whitespace run
becomes one space, then the ends are stripped. -/
def clean (l : List Char) : List Char :=
  strip (squeeze (l.map (fun c => if isSpc c then ' ' else c)))

/-- `clean` lifted to `String`. -/
def cleanStr (s : String) : String := ⟨clean s.data⟩

/-- Python `str.upper()` on the characters this program sees (ASCII letters
are mapped, CJK characters are fixed). -/
def upperL (l : List Char) : List Char := l.map Char.toUpper

/-- `str.upper()` lifted to `String`. -/
def upperStr (s : String) : String := ⟨upperL s.data⟩

/-- Consume a literal character sequence, returning the rest of the input. -/
def dropPfx : List Char → List Char → Option (List Char)
  | [], l => some l
  | _ :: _, [] => none
  | w :: ws, c :: cs => if c = w then dropPfx ws cs else none

/-- `int(m.group("num"))` on a digit run. -/
def digitsToNat (ds : List Char) : Nat :=
  ds.foldl (fun acc c => 10 * acc + (c.toNat - '0'.toNat)) 0

/-- The alternation `(单选|多选|判断)`, in the regex's order. -/
def tryTypeWord (l : List Char) : Option (String × List Char) :=
  match dropPfx "单选".data l with
  | some r => some ("单选", r)
  | none =>
    match dropPfx "多选".data l with
    | some r => some ("多选", r)
    | none => (dropPfx "判断".data l).map (fun r => ("判断", r))

/-- The part `\s*(单选|多选|判断)\s*[)）]` of the type-hint group of
`RE_Q_START`. -/
def tryTypeInner (l : List Char) : Option (String × List Char) :=
  match tryTypeWord (l.dropWhile isSpc) with
  | some (t, r1) =>
    match r1.dropWhile isSpc with
    | c :: r2 => if c = ')' ∨ c = '）' then some (t, r2) else none
    | [] => none
  | none => none

/-- The optional group `(?:[（(]?\s*(单选|多选|判断)\s*[)）])` of
`RE_Q_START`: the opening parenthesis is itself optional, and the regex
backtracks from the consuming alternative to the empty one. -/
def tryTypeGroup (l : List Char) : Option (String × List Char) :=
  match l with
  | c :: rest =>
    if c = '（' ∨ c = '(' then
      match tryTypeInner rest with
      | some r => some r
      | none => tryTypeInner l
    else tryTypeInner l
  | [] => tryTypeInner l

/-- `RE_Q_START.match(line)`:
`^\s*(?P<num>\d+)\s*[\.\、\)]\s*(?:[（(]?\s*(?P<typedesc>单选|多选|判断)\s*[)）])?\s*(?P<qtext>.*)$`.
Returns `(num, typedesc?, qtext)`. -/
def matchQStart (l : List Char) : Option (Nat × Option String × List Char) :=
  let l1 := l.dropWhile isSpc
  let ds := l1.takeWhile Char.isDigit
  if ds.isEmpty then none
  else
    match (l1.dropWhile Char.isDigit).dropWhile isSpc with
    | sep :: r2 =>
      if sep = '.' ∨ sep = '、' ∨ sep = ')' then
        let r3 := r2.dropWhile isSpc
        match tryTypeGroup r3 with
        | some (t, r4) => some (digitsToNat ds, some t, r4.dropWhile isSpc)
        | none => some (digitsToNat ds, none, r3)
      else none
    | [] => none

/-- `RE_OPT.match(line)`: `^\s*([A-Za-z])\s*[\.\、\)]\s*(.*\S)\s*$`.
Returns `(letter, text)`; the text group excludes surrounding whitespace and
the match fails when the option text is blank. -/
def matchOpt (l : List Char) : Option (Char × List Char) :=
  match l.dropWhile isSpc with
  | c :: rest =>
    if c.isAlpha then
      match rest.dropWhile isSpc with
      | sep :: r2 =>
        if sep = '.' ∨ sep = '、' ∨ sep = ')' then
          let t := strip r2
          if t.isEmpty then none else some (c, t)
        else none
      | [] => none
    else none
  | [] => none

/-- The part `\s*[:：]\s*(.+?)\s*$` of `RE_ANS`, applied after the label
word.  On the parser's pre-stripped lines the lazy group is exactly the
rest with surrounding whitespace removed, failing when it is empty. -/
def ansTail (l : List Char) : Option (List Char) :=
  match l.dropWhile isSpc with
  | c :: rest =>
    if c = ':' ∨ c = '：' then
      let t := strip rest
      if t.isEmpty then none else some t
    else none
  | [] => none

/-- `RE_ANS.match(line)`: `^\s*(?:答案|正确答案)\s*[:：]\s*(.+?)\s*$`,
with the regex's alternation order and backtracking. -/
def matchAns (l : List Char) : Option (List Char) :=
  let l1 := l.dropWhile isSpc
  match (dropPfx "答案".data l1).bind ansTail with
  | some t => some t
  | none => (dropPfx "正确答案".data l1).bind ansTail

/-- Does the whole suffix match `[（(]\s*(单选|多选|判断)\s*[)）]\s*$`?
This is the tail of `RE_Q_TYPE_AT_END`. -/
def tailTypeAt (l : List Char) : Option String :=
  match l with
  | c :: rest =>
    if c = '（' ∨ c = '(' then
      match tryTypeWord (rest.dropWhile isSpc) with
      | some (t, r1) =>
        match r1.dropWhile isSpc with
        | c2 :: r2 =>
          if (c2 = ')' ∨ c2 = '）') ∧ (r2.dropWhile isSpc).isEmpty then some t
          else none
        | [] => none
      | none => none
    else none
  | [] => none

/-- Scan for the lazy split point of `RE_Q_TYPE_AT_END`:
`(?P<body>.*?)[（(]\s*(单选|多选|判断)\s*[)）]\s*$` — the shortest body whose
remaining suffix is a trailing type hint. -/
def findTypeAtEnd : List Char → List Char → Option (String × List Char)
  | acc, l =>
    match tailTypeAt l with
    | some t => some (t, acc.reverse)
    | none =>
      match l with
      | [] => none
      | c :: rest => findTypeAtEnd (c :: acc) rest

/-- `extract_type_from_text`: returns `(typ, clean(body))` when the text ends
in a parenthesized type hint, else `(None, clean(text))`. -/
def extract_type_from_text (text : List Char) : Option String × List Char :=
  match findTypeAtEnd [] text with
  | some (t, body) => (some t, clean body)
  | none => (none, clean text)

/-- `TRUE_SET`. -/
def TRUE_SET : List String := ["对", "正确", "√", "T", "TRUE", "YES", "Y", "是"]

/-- `FALSE_SET`. -/
def FALSE_SET : List String := ["错", "错误", "×", "F", "FALSE", "NO", "N", "否"]

/-- The separator class `[、，,;；\s\+]` of the answer splitter. -/
def isAnsSep (c : Char) : Bool :=
  c = '、' ∨ c = '，' ∨ c = ',' ∨ c = ';' ∨ c = '；' ∨ c = '+' ∨ isSpc c

/-- `re.split(r"[、，,;；\s\+]+", t)` followed by dropping empty pieces. -/
def splitTokens : List Char → List Char → List (List Char)
  | cur, [] => if cur.isEmpty then [] else [cur.reverse]
  | cur, c :: rest =>
    if isAnsSep c then
      if cur.isEmpty then splitTokens [] rest else cur.reverse :: splitTokens [] rest
    else splitTokens (c :: cur) rest

/-- `re.match(r"([A-Z])", p)`: the leading character when it is an ASCII
uppercase letter. -/
def leadingLetter (p : List Char) : Option Char :=
  match p with
  | c :: _ => if 'A' ≤ c ∧ c ≤ 'Z' then some c else none
  | [] => none

/-- The seen-set dedup loop of the single/multi-choice branch of
`normalize_answers`. -/
def dedupKeepFirst (seen : List Char) : List Char → List Char
  | [] => []
  | c :: rest =>
    if c ∈ seen then dedupKeepFirst seen rest
    else c :: dedupKeepFirst (c :: seen) rest

/-- `normalize_answers(ans_text, q_type)`.  `none` models the `IndexError`
that `parts[0]` raises when every token is a separator. -/
def normalize_answers (ansText : List Char) (qType : String) : Option (List String) :=
  let t := upperL (strip ansText)
  let parts := splitTokens [] t
  if qType = "判断" then
    match parts with
    | [] => none
    | token :: _ =>
      let tok : String := ⟨token⟩
      if tok ∈ TRUE_SET ∨ (⟨upperL token⟩ : String) ∈ TRUE_SET then some ["A"]
      else if tok ∈ FALSE_SET ∨ (⟨upperL token⟩ : String) ∈ FALSE_SET then some ["B"]
      else if tok = "A" ∨ tok = "B" then some [tok]
      else some []
  else
    some ((dedupKeepFirst [] (parts.filterMap leadingLetter)).map Char.toString)

/-- One `{"label": …, "text": …}` option dict. -/
structure Opt where
  label : String
  text : String
  deriving DecidableEq, Repr

/-- The `answer` entry of the buffered dict: within `flush_current` it may
be a bare string or a list (`isinstance(ans, str)` branch). -/
inductive AnsField where
  | str : String → AnsField
  | list : List String → AnsField
  deriving DecidableEq, Repr

/-- The in-progress record `cur`.  A non-empty `cur` always carries all
five keys: they are assigned together at every question start. -/
structure Buf where
  number : Nat
  type : String
  question : String
  options : List Opt
  answer : AnsField
  deriving DecidableEq, Repr

/-- A finalized question record as appended to `questions`. -/
structure QuestionRecord where
  number : Nat
  type : String
  question : String
  options : List Opt
  answer : List String
  deriving DecidableEq, Repr

/-- The option cleaning loop of `flush_current`: uppercase the label, clean
the text, drop empty labels/texts and labels already seen. -/
def cleanOptionsAux (seen : List String) : List Opt → List Opt
  | [] => []
  | o :: rest =>
    let label := upperStr o.label
    let text := cleanStr o.text
    if label = "" ∨ text = "" ∨ label ∈ seen then cleanOptionsAux seen rest
    else ⟨label, text⟩ :: cleanOptionsAux (label :: seen) rest

/-- The option cleaning loop started with an empty seen set. -/
def cleanOptions (opts : List Opt) : List Opt := cleanOptionsAux [] opts

/-- The answer-shape coercion of `flush_current`: wrap a non-empty string,
map an empty string to `[]`, keep lists. -/
def coerceAnswer : AnsField → List String
  | .str s => if s = "" then [] else [s]
  | .list l => l

/-- `flush_current(q_list, buf)`: synthesize 判断 default options, clean
options, coerce the answer, and append the record unless its cleaned
question text is empty. -/
def flush_current (qlist : List QuestionRecord) (buf : Option Buf) : List QuestionRecord :=
  match buf with
  | none => qlist
  | some b =>
    let opts0 :=
      if b.type = "判断" ∧ b.options = [] then [⟨"A", "正确"⟩, ⟨"B", "错误"⟩]
      else b.options
    let opts := cleanOptions opts0
    let ans := coerceAnswer b.answer
    if cleanStr b.question ≠ "" then
      qlist ++ [⟨b.number, b.type, b.question, opts, ans⟩]
    else qlist

/-- The loop state of `parse_docx`: the emitted records, the open record,
and the auto-numbering counter. -/
structure PState where
  questions : List QuestionRecord
  cur : Option Buf
  autoNum : Nat
  deriving DecidableEq, Repr

/-- The question-start branch of the parse loop: flush the open record,
open a new one, resolve its type from the two hint positions, and assign
its number. -/
def stepQ (respect : Bool) (st : PState) (num : Nat) (td : Option String)
    (qtext0 : List Char) : PState :=
  let questions := flush_current st.questions st.cur
  let qtext := strip qtext0
  let (typ2, qtext2) := extract_type_from_text qtext
  let qType := td.getD (typ2.getD "单选")
  let question : String := ⟨clean (if typ2.isSome then qtext2 else qtext)⟩
  if respect then
    ⟨questions, some ⟨num, qType, question, [], .list []⟩, num + 1⟩
  else
    ⟨questions, some ⟨st.autoNum, qType, question, [], .list []⟩, st.autoNum + 1⟩

/-- One iteration of the `for raw in lines + [""]` loop of `parse_docx`:
question start, then option, then answer, then continuation text; lines
matching nothing with no open record are dropped.  `none` models an
exception escaping the loop body. -/
def step (respect : Bool) (st : PState) (raw : String) : Option PState :=
  let line := strip raw.data
  match matchQStart line with
  | some (num, td, qt) => some (stepQ respect st num td qt)
  | none =>
    match st.cur with
    | none => some st
    | some b =>
      match matchOpt line with
      | some (c, txt) =>
        some { st with cur := some { b with options := b.options ++ [⟨(Char.toUpper c).toString, ⟨clean txt⟩⟩] } }
      | none =>
        match matchAns line with
        | some t =>
          (normalize_answers t b.type).map
            (fun a => { st with cur := some { b with answer := .list a } })
        | none =>
          if line.isEmpty then some st
          else
            let (typ2, body2) := extract_type_from_text line
            match typ2 with
            | some t =>
              let q : String := ⟨clean (strip (b.question.data ++ ' ' :: body2))⟩
              some { st with cur := some { b with type := t, question := q } }
            | none =>
              let q : String := ⟨clean (strip (b.question.data ++ ' ' :: line))⟩
              some { st with cur := some { b with question := q } }

/-- The whole loop of `parse_docx` run from a given initial state. -/
def runLines (respect : Bool) (init : PState) (lines : List String) : Option PState :=
  lines.foldlM (step respect) init

/-- `parse_docx` on the line sequence the document adapter yields: run the
loop over `lines + [""]` and flush the final open record.  Reading the
`.docx` itself is external I/O and is not part of the core. -/
def parse_docx (lines : List String) (start_number : Nat) (respect_word_number : Bool) :
    Option (List QuestionRecord) :=
  (runLines respect_word_number ⟨[], none, start_number⟩ (lines ++ [""])).map
    (fun st => flush_current st.questions st.cur)

/-- The outcome of reading and recognizing the append-target file in
`merge_existing`.  The filesystem read, the wrapper-shape regex search and
the JSON parse are external-library effects; each constructor corresponds
to one branch of the source: the file is missing, the regex
`window.questionsData = [...]` does not match, the captured payload fails
`json.loads`, or the payload parses to a record list. -/
inductive FileState where
  | absent
  | shapeMismatch
  | badPayload
  | parsed (old : List QuestionRecord)
  deriving DecidableEq, Repr

/-- The renumbering loop of `merge_existing`. -/
def renumberFrom (n : Nat) : List QuestionRecord → List QuestionRecord
  | [] => []
  | r :: rest => { r with number := n } :: renumberFrom (n + 1) rest

/-- `merge_existing(js_path, new_list, renumber_after_merge, start_number)`
over the recognition outcome of the existing file. -/
def merge_existing (fs : FileState) (new_list : List QuestionRecord)
    (renumber_after_merge : Bool) (start_number : Nat) : List QuestionRecord :=
  match fs with
  | .absent => new_list
  | .shapeMismatch => new_list
  | .badPayload =>
    let merged := ([] : List QuestionRecord) ++ new_list
    if renumber_after_merge then renumberFrom start_number merged else merged
  | .parsed old =>
    let merged := old ++ new_list
    if renumber_after_merge then renumberFrom start_number merged else merged

/-- Spec-side (for the C6 comparison): the case/whitespace normalization
applied to one declared option. -/
def normOpt (o : Opt) : Opt := ⟨upperStr o.label, cleanStr o.text⟩

/-- Spec-side (for the C6 comparison): an option is kept only when its
normalized label and cleaned text are both non-empty. -/
def validOpt (o : Opt) : Bool := decide (o.label ≠ "" ∧ o.text ≠ "")

/-- Spec-side (for the C6 comparison): de-duplicate by label, keeping the
first occurrence of each label and preserving first-appearance order. -/
def dedupFirstByLabel : List Opt → List Opt
  | [] => []
  | o :: rest =>
    o :: dedupFirstByLabel (rest.filter (fun p => decide (p.label ≠ o.label)))
termination_by l => l.length
decreasing_by
  simp only [List.length_cons]
  exact Nat.lt_succ_of_le (List.length_filter_le _ _)

/-- The number of lines of a sequence that the parser recognizes as
question starts (`RE_Q_START` matches the stripped line). -/
def countQ (lines : List String) : Nat :=
  (lines.filter (fun raw => (matchQStart (strip raw.data)).isSome)).length

/-! ### Helper lemmas -/

/-- The renumbering loop writes `n, n+1, …` positionally over the list. -/
theorem renumberFrom_eq_mapIdx (l : List QuestionRecord) : ∀ n : Nat,
    renumberFrom n l = l.mapIdx fun i r => { r with number := n + i } := by
  induction l with
  | nil => intro n; rfl
  | cons r rest ih =>
    intro n
    have hf : (fun i (x : QuestionRecord) => { x with number := n + (i + 1) }) =
        (fun i (x : QuestionRecord) => { x with number := (n + 1) + i }) := by
      funext i x
      simp [Nat.add_comm, Nat.add_assoc, Nat.add_left_comm]
    simp only [renumberFrom, List.mapIdx_cons, ih (n + 1), Nat.add_zero, hf]

/-- Discarding a buffered record with empty cleaned question text is a
no-op on the output list. -/
theorem flush_current_empty_question (ql : List QuestionRecord) (b : Buf)
    (h : cleanStr b.question = "") : flush_current ql (some b) = ql := by
  simp [flush_current, h]

/-- Every record present after a flush was either already emitted or has
non-empty cleaned question text. -/
theorem mem_flush_current (q : QuestionRecord) (ql : List QuestionRecord)
    (buf : Option Buf) (h : q ∈ flush_current ql buf) :
    q ∈ ql ∨ cleanStr q.question ≠ "" := by
  cases buf with
  | none => exact Or.inl h
  | some b =>
    simp only [flush_current] at h
    split at h
    · rcases List.mem_append.mp h with h1 | h2
      · exact Or.inl h1
      · rcases List.mem_singleton.mp h2 with rfl
        right
        assumption
    · exact Or.inl h

/-- One parse step only adds records through `flush_current`, so any record
it adds has non-empty cleaned question text. -/
theorem step_questions_mem (resp : Bool) (st st' : PState) (raw : String)
    (h : step resp st raw = some st') :
    ∀ q ∈ st'.questions, q ∈ st.questions ∨ cleanStr q.question ≠ "" := by
  intro q hq
  simp only [step] at h
  split at h
  · rcases Option.some.inj h with rfl
    have hsq : ∀ (num : Nat) (td : Option String) (qt : List Char),
        (stepQ resp st num td qt).questions = flush_current st.questions st.cur := by
      intro num td qt
      cases resp <;> rfl
    rw [hsq] at hq
    exact mem_flush_current q st.questions st.cur hq
  · split at h
    · rcases Option.some.inj h with rfl
      exact Or.inl hq
    · split at h
      · rcases Option.some.inj h with rfl
        exact Or.inl hq
      · split at h
        · rcases Option.map_eq_some'.mp h with ⟨a, _, rfl⟩
          exact Or.inl hq
        · split at h
          · rcases Option.some.inj h with rfl
            exact Or.inl hq
          · split at h
            · rcases Option.some.inj h with rfl
              exact Or.inl hq
            · rcases Option.some.inj h with rfl
              exact Or.inl hq

/-- Loop invariant: records accumulated over any Line sequence were either
present initially or have non-empty cleaned question text. -/
theorem runLines_questions_mem (resp : Bool) (lines : List String) :
    ∀ (st0 st : PState), runLines resp st0 lines = some st →
      ∀ q ∈ st.questions, q ∈ st0.questions ∨ cleanStr q.question ≠ "" := by
  induction lines with
  | nil =>
    intro st0 st h q hq
    rcases Option.some.inj h with rfl
    exact Or.inl hq
  | cons l rest ih =>
    intro st0 st h q hq
    rw [runLines, List.foldlM_cons] at h
    rcases Option.bind_eq_some.mp h with ⟨st1, h1, h2⟩
    rcases ih st1 st h2 q hq with h3 | h3
    · exact step_questions_mem resp st0 st1 l h1 q h3
    · exact Or.inr h3

/-! ### Claim theorems -/

/-- C3: every record emitted by the parser has non-empty question text
after whitespace cleaning, and a buffered record whose cleaned question
text is empty is discarded silently — flushing it returns the output list
unchanged (no entry, no error). -/
theorem emitted_questions_nonempty :
    (∀ (lines : List String) (s : Nat) (resp : Bool) (res : List QuestionRecord),
      parse_docx lines s resp = some res → ∀ q ∈ res, cleanStr q.question ≠ "") ∧
    (∀ (ql : List QuestionRecord) (b : Buf), cleanStr b.question = "" →
      flush_current ql (some b) = ql) := by
  constructor
  · intro lines s resp res h q hq
    rcases Option.map_eq_some'.mp h with ⟨st, hrun, rfl⟩
    rcases mem_flush_current q st.questions st.cur hq with h1 | h1
    · rcases runLines_questions_mem resp (lines ++ [""]) ⟨[], none, s⟩ st hrun q h1 with h2 | h2
      · cases h2
      · exact h2
    · exact h1
  · exact flush_current_empty_question

/-- C3 witness: the single question of a one-line document has non-empty
cleaned question text, and a record buffered from the bare line `1.` (empty
question) is dropped without error. -/
theorem emitted_questions_nonempty_witness :
    cleanStr ((⟨1, "单选", "天", [], []⟩ : QuestionRecord)).question ≠ "" ∧
    flush_current [] (some ⟨1, "单选", "", [], .list []⟩) = [] :=
  ⟨emitted_questions_nonempty.1 ["1. 天"] 1 false
      [⟨1, "单选", "天", [], []⟩] rfl _ (List.mem_singleton.mpr rfl),
    emitted_questions_nonempty.2 [] ⟨1, "单选", "", [], .list []⟩ rfl⟩

/-- A step on a question-start line with auto-numbering opens a record
numbered with the current counter value. -/
theorem step_qstart_cur_false (st st' : PState) (raw : String) (num : Nat)
    (td : Option String) (qt : List Char)
    (hm : matchQStart (strip raw.data) = some (num, td, qt))
    (h : step false st raw = some st') :
    Option.map Buf.number st'.cur = some st.autoNum := by
  simp only [step, hm] at h
  rcases Option.some.inj h with rfl
  rfl

/-- With auto-numbering, one step advances the counter exactly on
question-start lines. -/
theorem step_autoNum_false (st st' : PState) (raw : String)
    (h : step false st raw = some st') :
    st'.autoNum = st.autoNum +
      (if (matchQStart (strip raw.data)).isSome then 1 else 0) := by
  simp only [step] at h
  split at h
  · rename_i num td qt heq
    rcases Option.some.inj h with rfl
    simp [heq, stepQ]
  · rename_i heq
    simp only [heq, Option.isSome_none, Bool.false_eq_true, if_false]
    split at h
    · rcases Option.some.inj h with rfl; simp
    · split at h
      · rcases Option.some.inj h with rfl; simp
      · split at h
        · rcases Option.map_eq_some'.mp h with ⟨a, _, rfl⟩; simp
        · split at h
          · rcases Option.some.inj h with rfl; simp
          · split at h
            · rcases Option.some.inj h with rfl; simp
            · rcases Option.some.inj h with rfl; simp

/-- Loop invariant: with auto-numbering the counter equals its initial
value plus the number of question-start lines consumed. -/
theorem runLines_autoNum_false (lines : List String) :
    ∀ (st0 st : PState), runLines false st0 lines = some st →
      st.autoNum = st0.autoNum + countQ lines := by
  induction lines with
  | nil =>
    intro st0 st h
    rcases Option.some.inj h with rfl
    rfl
  | cons l rest ih =>
    intro st0 st h
    rw [runLines, List.foldlM_cons] at h
    rcases Option.bind_eq_some.mp h with ⟨st1, h1, h2⟩
    have ha := step_autoNum_false st0 st1 l h1
    have hb := ih st1 st h2
    have hc : countQ (l :: rest) =
        (if (matchQStart (strip l.data)).isSome then 1 else 0) + countQ rest := by
      by_cases hq : (matchQStart (strip l.data)).isSome = true
      · simp [countQ, List.filter_cons, hq, Nat.add_comm]
      · simp [countQ, List.filter_cons, hq]
    omega

/-- C5: with respect-declared-numbering off and auto-numbering from `s`,
the question-start line following any prefix containing `k-1` recognized
question starts opens a record numbered `s + (k-1)`; concretely, three
questions parsed from start value 5 receive numbers 5, 6, 7. -/
theorem auto_numbering_sequential :
    (∀ (pre : List String) (l : String) (s num : Nat) (td : Option String)
      (qt : List Char) (st' : PState),
      matchQStart (strip l.data) = some (num, td, qt) →
      runLines false ⟨[], none, s⟩ (pre ++ [l]) = some st' →
      Option.map Buf.number st'.cur = some (s + countQ pre)) ∧
    (parse_docx ["1. 甲", "2. 乙", "3. 丙"] 5 false).map
      (List.map QuestionRecord.number) = some [5, 6, 7] := by
  constructor
  · intro pre l s num td qt st' hm hrun
    rw [runLines, List.foldlM_append] at hrun
    rcases Option.bind_eq_some.mp hrun with ⟨st1, h1, h2⟩
    rw [List.foldlM_cons] at h2
    rcases Option.bind_eq_some.mp h2 with ⟨st2, h3, h4⟩
    rw [List.foldlM_nil] at h4
    rcases Option.some.inj h4 with rfl
    have hn := runLines_autoNum_false pre ⟨[], none, s⟩ st1 h1
    have hcur := step_qstart_cur_false st1 _ l num td qt hm h3
    rw [hcur, hn]
  · rfl

/-- C5 witness: after the prefix `["1. 甲"]` (one question start, start
value 5) the question-start line `2. 乙` opens a record numbered 6. -/
theorem auto_numbering_sequential_witness :
    Option.map Buf.number (PState.mk [⟨5, "单选", "甲", [], []⟩] (some ⟨6, "单选", "乙", [], .list []⟩) 7).cur = some 6 :=
  auto_numbering_sequential.1 ["1. 甲"] "2. 乙" 5 2 none "乙".data
    (PState.mk [⟨5, "单选", "甲", [], []⟩] (some ⟨6, "单选", "乙", [], .list []⟩) 7) rfl rfl

/-- An answer-line match forces the first non-space character to be the
head of one of the two label words. -/
theorem matchAns_first_char (l t : List Char) (h : matchAns l = some t) :
    ∃ c rest, l.dropWhile isSpc = c :: rest ∧ (c = '答' ∨ c = '正') := by
  simp only [matchAns] at h
  cases hl : l.dropWhile isSpc with
  | nil =>
    rw [hl] at h
    have h1 : dropPfx "答案".data ([] : List Char) = none := rfl
    have h2 : dropPfx "正确答案".data ([] : List Char) = none := rfl
    rw [h1, h2] at h
    simp at h
  | cons c rest =>
    rw [hl] at h
    refine ⟨c, rest, rfl, ?_⟩
    by_contra hc
    push_neg at hc
    have h1 : dropPfx "答案".data (c :: rest) = none := by
      have he : "答案".data = ['答', '案'] := rfl
      rw [he]
      simp [dropPfx, hc.1]
    have h2 : dropPfx "正确答案".data (c :: rest) = none := by
      have he : "正确答案".data = ['正', '确', '答', '案'] := rfl
      rw [he]
      simp [dropPfx, hc.2]
    rw [h1, h2] at h
    simp at h

/-- A line matching the answer pattern cannot match the question-start
pattern (which is anchored on a leading digit). -/
theorem matchAns_imp_qstart_none (l t : List Char) (h : matchAns l = some t) :
    matchQStart l = none := by
  obtain ⟨c, rest, hl, hc⟩ := matchAns_first_char l t h
  have hd : Char.isDigit c = false := by rcases hc with rfl | rfl <;> decide
  simp [matchQStart, hl, List.takeWhile_cons, hd]

/-- A line matching the answer pattern cannot match the option pattern
(which is anchored on a leading ASCII letter). -/
theorem matchAns_imp_opt_none (l t : List Char) (h : matchAns l = some t) :
    matchOpt l = none := by
  obtain ⟨c, rest, hl, hc⟩ := matchAns_first_char l t h
  have ha : c.isAlpha = false := by rcases hc with rfl | rfl <;> decide
  simp [matchOpt, hl, ha]

/-- C8: with a record open, every answer-line match replaces the record's
answer wholesale with the normalization of that line's text against the
record's current type, so the previously stored answer is overwritten and
the last answer line wins. -/
theorem last_answer_wins (resp : Bool) (st : PState) (b : Buf) (raw : String)
    (t : List Char) (hcur : st.cur = some b)
    (hans : matchAns (strip raw.data) = some t) :
    step resp st raw =
      (normalize_answers t b.type).map
        (fun a => { st with cur := some { b with answer := AnsField.list a } }) := by
  have hq := matchAns_imp_qstart_none _ _ hans
  have ho := matchAns_imp_opt_none _ _ hans
  simp only [step, hq, ho, hcur, hans]

/-- C8 witness: a record already holding answer `["A"]` gets it replaced by
`["B"]` when a later answer line `答案：B` is processed. -/
theorem last_answer_wins_witness :
    step false (PState.mk [] (some ⟨1, "单选", "q", [], .list ["A"]⟩) 2) "答案：B" =
      some (PState.mk [] (some ⟨1, "单选", "q", [], .list ["B"]⟩) 2) := by
  have h := last_answer_wins false
    (PState.mk [] (some ⟨1, "单选", "q", [], .list ["A"]⟩) 2)
    ⟨1, "单选", "q", [], .list ["A"]⟩ "答案：B" "B".data rfl rfl
  rw [h]
  rfl

/-- C7: a buffered true-false record with no source-supplied options is
finalized with exactly the fixed default option pair `A`→“正确”,
`B`→“错误”, in that order. -/
theorem tf_default_options (ql : List QuestionRecord) (b : Buf)
    (h1 : b.type = "判断") (h2 : b.options = []) (h3 : cleanStr b.question ≠ "") :
    flush_current ql (some b) =
      ql ++ [⟨b.number, b.type, b.question, [⟨"A", "正确"⟩, ⟨"B", "错误"⟩],
        coerceAnswer b.answer⟩] := by
  have hco : cleanOptions [⟨"A", "正确"⟩, ⟨"B", "错误"⟩] =
      [⟨"A", "正确"⟩, ⟨"B", "错误"⟩] := rfl
  simp [flush_current, h1, h2, h3, hco]

/-- C7 witness: a concrete 判断 record with no options finalizes to the
default option pair. -/
theorem tf_default_options_witness :
    flush_current [] (some ⟨1, "判断", "天是蓝的", [], .list []⟩) =
      [⟨1, "判断", "天是蓝的", [⟨"A", "正确"⟩, ⟨"B", "错误"⟩], []⟩] :=
  tf_default_options [] ⟨1, "判断", "天是蓝的", [], .list []⟩ rfl rfl (by decide)

/-- C1: the claim states that true-false answer normalization never raises.
It does raise: on answer text made only of separator characters the token
list is empty and `parts[0]` raises `IndexError`; end to end, the whole
parse aborts (`none`).  The source's own fallback comment promises an empty
list for unrecognizable answers, so this is a code bug, not intent. -/
theorem tf_separator_only_answer_raises :
    normalize_answers "+".data "判断" = none ∧
    parse_docx ["1、（判断）天是蓝的", "答案：+"] 1 false = none :=
  ⟨rfl, rfl⟩

/-- C2 counterexample: merging into an existing file whose content does not
match the wrapped-array shape is NOT the same as merging into an empty base
set when renumbering is requested — the new list is returned with its
original numbers (here `[9]`), while an empty base set would yield `[1]`. -/
theorem merge_shape_mismatch_counterexample :
    (merge_existing .shapeMismatch [⟨9, "单选", "q", [], []⟩] true 1 ==
      merge_existing (.parsed []) [⟨9, "单选", "q", [], []⟩] true 1) = false ∧
    (merge_existing .shapeMismatch [⟨9, "单选", "q", [], []⟩] true 1).map
      QuestionRecord.number = [9] ∧
    (merge_existing (.parsed []) [⟨9, "单选", "q", [], []⟩] true 1).map
      QuestionRecord.number = [1] :=
  ⟨rfl, rfl, rfl⟩

/-- C2 amended: a shape-mismatched existing file makes the merge return the
new list unchanged (no renumbering even when requested); only a matching
wrapper whose array payload fails to parse is treated as an empty base set,
with renumbering then applied as usual. -/
theorem merge_malformed_fallback_amended :
    (∀ (N : List QuestionRecord) (r : Bool) (s : Nat),
      merge_existing .shapeMismatch N r s = N) ∧
    (∀ (N : List QuestionRecord) (r : Bool) (s : Nat),
      merge_existing .badPayload N r s = merge_existing (.parsed []) N r s) :=
  ⟨fun _ _ _ => rfl, fun _ _ _ => rfl⟩

/-- C4: merging existing records `O` with new records `N` without
renumbering yields the concatenation `O ++ N` with every field (numbers
included) preserved; with renumbering from `s` it yields the same
concatenation with the `number` fields positionally reassigned
`s, s+1, …`. -/
theorem merge_concat_and_renumber :
    (∀ (O N : List QuestionRecord) (s : Nat),
      merge_existing (.parsed O) N false s = O ++ N) ∧
    (∀ (O N : List QuestionRecord) (s : Nat),
      merge_existing (.parsed O) N true s =
        (O ++ N).mapIdx fun i r => { r with number := s + i }) := by
  refine ⟨fun O N s => rfl, fun O N s => ?_⟩
  simpa [merge_existing] using renumberFrom_eq_mapIdx (O ++ N) s

/-- C9: when the append-target file is absent, the merge returns the new
list unchanged; in particular the renumber flag is ignored, so a record
numbered 9 keeps 9 even with renumbering from 1 requested. -/
theorem merge_absent_returns_new :
    (∀ (N : List QuestionRecord) (r : Bool) (s : Nat),
      merge_existing .absent N r s = N) ∧
    merge_existing .absent [⟨9, "单选", "q", [], []⟩] true 1 =
      [⟨9, "单选", "q", [], []⟩] :=
  ⟨fun _ _ _ => rfl, rfl⟩

/-- C10: answers are never cross-validated against the declared options —
this input's record carries option labels `["A"]` but finalized answer
`["Z"]`, the leading-letter extraction of the last answer line. -/
theorem answer_not_cross_validated :
    parse_docx ["1. 下列正确的是", "A. 甲", "答案：A", "答案：Z乙"] 1 false =
      some [⟨1, "单选", "下列正确的是", [⟨"A", "甲"⟩], ["Z"]⟩] ∧
    (([⟨"A", "甲"⟩] : List Opt).map Opt.label).contains "Z" = false :=
  ⟨rfl, rfl⟩

/-- The seen-set cleaning loop agrees with normalize-filter-dedup for any
initial seen set (labels already seen are filtered out up front). -/
theorem cleanOptionsAux_eq_dedup (opts : List Opt) : ∀ seen : List String,
    cleanOptionsAux seen opts =
      dedupFirstByLabel (((opts.map normOpt).filter validOpt).filter
        (fun x => decide (x.label ∉ seen))) := by
  induction opts with
  | nil => intro seen; simp [cleanOptionsAux, dedupFirstByLabel]
  | cons o rest ih =>
    intro seen
    by_cases h1 : upperStr o.label = "" ∨ cleanStr o.text = ""
    · have hv : validOpt (normOpt o) = false := by
        rcases h1 with h | h <;> simp [validOpt, normOpt, h]
      have hg : upperStr o.label = "" ∨ cleanStr o.text = "" ∨ upperStr o.label ∈ seen := by
        tauto
      simp only [cleanOptionsAux, List.map_cons, List.filter_cons, hv,
        Bool.false_eq_true, if_false]
      rw [if_pos hg]
      exact ih seen
    · push_neg at h1
      obtain ⟨hL, hT⟩ := h1
      have hv : validOpt (normOpt o) = true := by
        simp only [validOpt, normOpt, decide_eq_true_eq]
        exact ⟨hL, hT⟩
      by_cases hs : upperStr o.label ∈ seen
      · have hw : decide ((normOpt o).label ∉ seen) = false := by
          simp [normOpt, hs]
        simp only [cleanOptionsAux, List.map_cons, List.filter_cons, hv,
          if_true, hw, Bool.false_eq_true, if_false]
        rw [if_pos (Or.inr (Or.inr hs))]
        exact ih seen
      · have hw : decide ((normOpt o).label ∉ seen) = true := by
          simp [normOpt, hs]
        have hg : ¬(upperStr o.label = "" ∨ cleanStr o.text = "" ∨ upperStr o.label ∈ seen) := by
          tauto
        have hff : ∀ Y : List Opt,
            (Y.filter (fun x => decide (x.label ∉ seen))).filter
              (fun p => decide (p.label ≠ upperStr o.label)) =
            Y.filter (fun x => decide (x.label ∉ upperStr o.label :: seen)) := by
          intro Y
          rw [List.filter_filter]
          apply List.filter_congr
          intro a _
          by_cases hL' : a.label = upperStr o.label <;>
            by_cases hs' : a.label ∈ seen <;> simp [hL', hs', List.mem_cons]
        simp only [cleanOptionsAux, List.map_cons, List.filter_cons, hv,
          if_true, hw]
        rw [if_neg hg]
        rw [dedupFirstByLabel]
        refine congrArg (fun tl => normOpt o :: tl) ?_
        have hlab : (normOpt o).label = upperStr o.label := rfl
        rw [hlab, hff, ih (upperStr o.label :: seen)]

/-- C6: finalization of a record's options equals normalizing each option
(uppercase label, cleaned text), dropping options with empty label or empty
cleaned text, then de-duplicating by label keeping the first occurrence in
first-appearance order; in particular options declared `B, B, A` finalize
to labels `[B, A]`. -/
theorem options_dedup_first_occurrence :
    (∀ opts : List Opt,
      cleanOptions opts = dedupFirstByLabel ((opts.map normOpt).filter validOpt)) ∧
    (cleanOptions [⟨"B", "甲"⟩, ⟨"B", "乙"⟩, ⟨"A", "丙"⟩]).map Opt.label = ["B", "A"] := by
  constructor
  · intro opts
    have h := cleanOptionsAux_eq_dedup opts []
    have he : (fun x : Opt => decide (x.label ∉ ([] : List String))) =
        fun _ => true := by
      funext x
      simp
    rw [cleanOptions, h, he, List.filter_true]
  · rfl

end W2Q
